import Mathlib

/-!
Verification development for the ACME bootstrap core (src/src/util.rs and
src/src/dir.rs): a shallow embedding of the data model and operations,
followed by theorems about them.  Network I/O is modelled by an explicit
`World` trace (the list of requests sent so far, and the list of persistence
writes performed so far) together with an `Oracle` that determines the
response to the n-th request sent.
-/

namespace AcmeLib

/-- Raw byte strings; each entry is a byte value (the Rust side uses `u8`,
so meaningful inputs satisfy `b < 256`). -/
abbrev Bytes := List Nat

/-- The raw material of a P-256 private key (openssl's `EcKey<Private>` is
opaque external state; it is modelled as its underlying byte content). -/
abbrev KeyMaterial := List Nat

/-- The crate's error type.  The `Call` and `Base64Decode` variants appear
directly in src/src/util.rs.  The enum itself lives in src/lib.rs, which is
not among the provided sources, so the remaining variants are modelled from
the spec (section 7): `MissingField` for an absent header or field,
`JsonDecode` and `PemDecode` for malformed input, `Persist` for a failure of
the external store. -/
inductive Error where
  | Call : String → Error
  | Base64Decode : String → Error
  | JsonDecode : String → Error
  | MissingField : String → Error
  | PemDecode : String → Error
  | Persist : String → Error
  deriving DecidableEq

instance {ε α : Type} [DecidableEq ε] [DecidableEq α] : DecidableEq (Except ε α) := fun x y =>
  match x, y with
  | .ok a, .ok b => if h : a = b then .isTrue (by rw [h]) else .isFalse (by simp [h])
  | .error a, .error b => if h : a = b then .isTrue (by rw [h]) else .isFalse (by simp [h])
  | .ok _, .error _ => .isFalse (by simp)
  | .error _, .ok _ => .isFalse (by simp)

/-! ## Codec utilities (src/src/util.rs lines 10-22)

`base64url` and `unbase64url` call into the external `base64` crate with the
configuration fixed in src/src/util.rs: URL-safe character set, no padding.
The crate itself is not repository code, so the encoder and decoder are
modelled here concretely for exactly that configuration. -/

/-- The URL-safe base64 alphabet (`base64::CharacterSet::UrlSafe`). -/
def b64Chars : List Char :=
  "ABCDEFGHIJKLMNOPQRSTUVWXYZabcdefghijklmnopqrstuvwxyz0123456789-_".toList

/-- Map a 6-bit value to its alphabet character. -/
def encChar (v : Nat) : Char := b64Chars.getD v 'A'

/-- Map an alphabet character back to its 6-bit value. -/
def decChar (c : Char) : Option Nat := b64Chars.findIdx? (fun x => x == c)

/-- Unpadded base64 encoding at the level of character lists: three input
bytes become four output characters; a final remainder of one or two bytes
becomes two or three characters and no padding is emitted. -/
def b64EncodeList : List Nat → List Char
  | [] => []
  | [b1] => [encChar (b1 / 4), encChar (b1 % 4 * 16)]
  | [b1, b2] => [encChar (b1 / 4), encChar (b1 % 4 * 16 + b2 / 16), encChar (b2 % 16 * 4)]
  | b1 :: b2 :: b3 :: rest =>
    encChar (b1 / 4) :: encChar (b1 % 4 * 16 + b2 / 16) ::
      encChar (b2 % 16 * 4 + b3 / 64) :: encChar (b3 % 64) :: b64EncodeList rest

/-- `base64url` (src/src/util.rs line 15): URL-safe unpadded encoding. -/
def base64url (input : Bytes) : String := String.mk (b64EncodeList input)

/-- Unpadded base64 decoding at the level of character lists.  A single
trailing character is an invalid length; an out-of-alphabet character is an
invalid symbol. -/
def b64DecodeList : List Char → Except String (List Nat)
  | [] => .ok []
  | [_] => .error "Encoded text cannot have a 6-bit remainder."
  | [c1, c2] =>
    match decChar c1, decChar c2 with
    | some v1, some v2 => .ok [v1 * 4 + v2 / 16]
    | _, _ => .error "Invalid byte"
  | [c1, c2, c3] =>
    match decChar c1, decChar c2, decChar c3 with
    | some v1, some v2, some v3 =>
      .ok [v1 * 4 + v2 / 16, v2 % 16 * 16 + v3 / 4]
    | _, _, _ => .error "Invalid byte"
  | c1 :: c2 :: c3 :: c4 :: rest =>
    match decChar c1, decChar c2, decChar c3, decChar c4 with
    | some v1, some v2, some v3, some v4 =>
      match b64DecodeList rest with
      | .ok bs => .ok ((v1 * 4 + v2 / 16) :: (v2 % 16 * 16 + v3 / 4) :: (v3 % 4 * 64 + v4) :: bs)
      | .error e => .error e
    | _, _, _, _ => .error "Invalid byte"

/-- `unbase64url` (src/src/util.rs line 20): decode, mapping a decode failure
to `Error.Base64Decode`. -/
def unbase64url (input : String) : Except Error Bytes :=
  match b64DecodeList input.toList with
  | .ok bs => .ok bs
  | .error msg => .error (.Base64Decode msg)

/-! ## HTTP requests and responses (the `ureq` crate surface used by the core) -/

inductive Method where
  | GET
  | HEAD
  | POST
  deriving DecidableEq

/-- A `ureq::Request` as used by the core: method, url, the one header the
core sets (`content-type`), and the three timeouts set by `configure_req`. -/
structure Request where
  method : Method
  url : String
  contentType : Option String
  timeoutConnectMs : Nat
  timeoutReadMs : Nat
  timeoutWriteMs : Nat
  deriving DecidableEq

def ureqGet (url : String) : Request := ⟨.GET, url, none, 0, 0, 0⟩

def ureqHead (url : String) : Request := ⟨.HEAD, url, none, 0, 0, 0⟩

def ureqPost (url : String) : Request := ⟨.POST, url, none, 0, 0, 0⟩

/-- `configure_req` (src/src/util.rs lines 39-43): set the three per-attempt
timeouts to 30 seconds. -/
def configure_req (req : Request) : Request :=
  { req with timeoutConnectMs := 30000, timeoutReadMs := 30000, timeoutWriteMs := 30000 }

/-- A `ureq::Response`: status, headers, and the body as observed by reading
the response stream: `bodyRead` is the text that reading yields (possibly a
truncated prefix of the full body) and `readErr` records whether an io error
occurred during that read. -/
structure Response where
  status : Nat
  headers : List (String × String)
  bodyRead : String
  readErr : Bool
  deriving DecidableEq

/-- `ureq::Response::ok`: the status is in the success range. -/
def Response.ok (r : Response) : Bool := decide (200 ≤ r.status ∧ r.status < 300)

/-- `ureq::Response::header`: look a header up by name. -/
def Response.header (r : Response) (name : String) : Option String :=
  (r.headers.find? (fun p => p.1 == name)).map (fun p => p.2)

/-! ## Body reading and JSON decoding (src/src/util.rs lines 24-37) -/

/-- `read.read_to_string(&mut res_body)` in `safe_read_string`: reading the
response stream yields the prefix that was captured and whether an io error
occurred. -/
def readToString (res : Response) : String × Bool := (res.bodyRead, res.readErr)

/-- `safe_read_string` (src/src/util.rs lines 30-37): the io error from the
read is discarded by `.ok();` — whatever text was captured is returned as a
success. -/
def safe_read_string (res : Response) : Except Error String :=
  .ok (readToString res).1

/-- `read_json` (src/src/util.rs lines 24-28).  The serde decoder for the
target type is external code, so it is a parameter `dec`; its failure becomes
`Error.JsonDecode` (the `?` conversion of a `serde_json::Error`). -/
def read_json {α : Type} (dec : String → Except String α) (res : Response) : Except Error α :=
  match safe_read_string res with
  | .error e => .error e
  | .ok res_body =>
    match dec res_body with
    | .ok v => .ok v
    | .error msg => .error (.JsonDecode msg)

/-- `expect_header` (src/src/util.rs lines 78-82): the named header, or the
missing-field error `format!("Missing header: {}", name)`. -/
def expect_header (res : Response) (name : String) : Except Error String :=
  match res.header name with
  | some v => .ok v
  | none => .error (.MissingField ("Missing header: " ++ name))

/-! ## The account key (src/src/util.rs lines 84-117) -/

/-- `AcmeKey` (src/src/util.rs line 85): a tuple struct of the private key
(field `.0`, here `key`) and the optional server key id (field `.1`, here
`keyId`). -/
structure AcmeKey where
  key : KeyMaterial
  keyId : Option String
  deriving DecidableEq

/-- Modelled from the spec: openssl's `private_key_to_pem` (called at
src/src/util.rs line 104; the openssl crate is not repository code).
Spec section 4.2: `to_pem` serializes the private key only.  Modelled as an
injective framing of the raw key material behind a recognisable first byte
(45, the dash that opens a PEM banner). -/
def pemEncode (k : KeyMaterial) : Bytes := 45 :: k

/-- Modelled from the spec: openssl's `private_key_from_pem` (called at
src/src/util.rs line 95).  Spec section 4.2: fails with a decode error on
malformed PEM input, and recovers exactly the serialized private key
otherwise. -/
def pemDecode (pem : Bytes) : Except Error KeyMaterial :=
  match pem with
  | 45 :: k => .ok k
  | _ => .error (.PemDecode "Failed to read PEM")

/-- `AcmeKey::from_key` (src/src/util.rs lines 99-101): wrap key material
with no key id. -/
def AcmeKey.from_key (pri_key : KeyMaterial) : AcmeKey := ⟨pri_key, none⟩

/-- `AcmeKey::new` (src/src/util.rs lines 88-91).  Key generation draws fresh
randomness from openssl; the generated material is therefore a parameter. -/
def AcmeKey.new (generated : KeyMaterial) : AcmeKey := AcmeKey.from_key generated

/-- `AcmeKey::from_pem` (src/src/util.rs lines 93-97). -/
def AcmeKey.from_pem (pem : Bytes) : Except Error AcmeKey :=
  match pemDecode pem with
  | .error e => .error e
  | .ok pri_key => .ok (AcmeKey.from_key pri_key)

/-- `AcmeKey::to_pem` (src/src/util.rs lines 103-105). -/
def AcmeKey.to_pem (a : AcmeKey) : Bytes := pemEncode a.key

/-- `AcmeKey::private_key` (src/src/util.rs lines 107-109). -/
def AcmeKey.private_key (a : AcmeKey) : KeyMaterial := a.key

/-- The outcome of a Rust operation that can panic. -/
structure RustPanic where
  msg : String
  deriving DecidableEq

/-- `AcmeKey::key_id` (src/src/util.rs lines 111-113): `self.1.as_ref().unwrap()`
— panics when the key id has not been set. -/
def AcmeKey.key_id (a : AcmeKey) : Except RustPanic String :=
  match a.keyId with
  | some kid => .ok kid
  | none => .error ⟨"called Option.unwrap on a None value"⟩

/-- `AcmeKey::set_key_id` (src/src/util.rs lines 115-117). -/
def AcmeKey.set_key_id (a : AcmeKey) (kid : String) : AcmeKey := { a with keyId := some kid }

/-! ## The account record and the signed envelope -/

/-- Modelled from the spec: `ApiAccount` (src/api.rs is not among the
provided sources).  Spec section 6: the registration payload carries the
contact list and the terms-of-service flag. -/
structure ApiAccount where
  contact : List String
  termsOfServiceAgreed : Option Bool
  deriving DecidableEq

def ApiAccount.default : ApiAccount := ⟨[], none⟩

/-- Modelled from the spec: the signed envelope built by `make_jws_jwk`
(src/jwt.rs is not among the provided sources).  Spec sections 3, 4.4 and 6:
the protected header carries the nonce, the target URL, and exactly one of
the raw public key (jwk form) or the server key id; the payload and the
signature by the account's private key complete the envelope.  The JSON and
base64url wire serialization of the envelope is abstracted away so that the
embedded nonce stays observable to the theorems. -/
structure Jws where
  nonce : String
  url : String
  jwk : Option KeyMaterial
  kid : Option String
  payload : ApiAccount
  signedBy : KeyMaterial
  deriving DecidableEq

/-- Modelled from the spec: `make_jws_jwk` (called at src/src/dir.rs line 87)
builds the jwk-form envelope: public-key form, never the key-id form.  Spec
section 4.4 treats signing as infallible for a well-formed key; the `Result`
return mirrors the `?` at the call site. -/
def make_jws_jwk (url : String) (nonce : String) (key : AcmeKey) (payload : ApiAccount) :
    Except Error Jws :=
  .ok ⟨nonce, url, some key.key, none, payload, key.key⟩

/-! ## The network world and the retrying caller (src/src/util.rs lines 45-76) -/

/-- The body of an outgoing request: `None` for the GET and HEAD calls, and
the signed envelope for the registration POST (in the source the envelope
travels as its JSON string; it is kept structured here). -/
abbrev Body := Option Jws

/-- The environment's answer to the n-th request sent (counting from 0). -/
abbrev Oracle := Nat → Request → Body → Response

/-- Modelled from the spec: the kinds of persisted artifacts
(src/persist.rs is not among the provided sources; spec section 3,
PersistedKeyHandle). -/
inductive PersistKind where
  | AccountPrivateKey
  | PrivateKey
  | Certificate
  deriving DecidableEq

/-- Modelled from the spec: `PersistKey` — the composite handle
{realm, kind, key} addressing the external store (spec section 3). -/
structure PersistKey where
  realm : String
  kind : PersistKind
  key : String
  deriving DecidableEq

/-- The observable trace of a run: every request sent (in order) and every
persistence write performed (in order). -/
structure World where
  sent : List (Request × Body)
  puts : List (PersistKey × Bytes)
  deriving DecidableEq

def World.empty : World := ⟨[], []⟩

/-- Send a request: log it and obtain the oracle's response for its position
in the trace. -/
def World.send (oracle : Oracle) (w : World) (req : Request) (body : Body) :
    World × Response :=
  ({ w with sent := w.sent ++ [(req, body)] }, oracle w.sent.length req body)

/-- The error built at src/src/util.rs lines 69-72:
`format!("Call failed ({}): {}", status, res_body)`. -/
def callFailed (status : Nat) (res_body : String) : Error :=
  .Call ("Call failed (" ++ toString status ++ "): " ++ res_body)

/-- The terminal failure of the retry loop (src/src/util.rs lines 65-72):
read the body of the final response (a step that by construction cannot
fail) and build the `Call` error from its status and text. -/
def retryTerminal (sr : World × Response) : World × Except Error Response :=
  match safe_read_string sr.2 with
  | .error e => (sr.1, .error e)
  | .ok res_body => (sr.1, .error (callFailed sr.2.status res_body))

/-- One iteration of the `retry_call` loop body (src/src/util.rs lines
50-63): invoke the attempt builder `f` (propagating its failure), configure
timeouts, send the request; return a success response, and otherwise hand
the failed send to the continuation that decides between terminal failure
and retry. -/
def retry_attempt (oracle : Oracle) (f : World → World × Except Error (Request × Body))
    (w : World) (next : World × Response → World × Except Error Response) :
    World × Except Error Response :=
  match f w with
  | (w1, .error e) => (w1, .error e)
  | (w1, .ok (req, body)) =>
    let req2 := configure_req req
    let sr := w1.send oracle req2 body
    if sr.2.ok then (sr.1, .ok sr.2)
    else next sr

/-- The loop of `retry_call` (src/src/util.rs lines 45-76).  The source
counts attempts upward in `i`, entering with `i = 0`; here the equivalent
remaining-attempt budget `budget = 3 - i` counts down, entering with 3, so
that the recursion is structural.  The source's exit test
`i == 3 || res.status() == 400` (the attempt just made was the third, or the
status is terminal) becomes: on budget 1 — the last attempt — every failure
is terminal, and on a larger budget a status-400 failure is terminal while
any other failure retries immediately.  Budget 0 cannot arise from
`retry_call` (the source only ever enters the loop with `i = 0`); it is
treated as exhausted. -/
def retry_go (oracle : Oracle) (f : World → World × Except Error (Request × Body)) :
    Nat → World → World × Except Error Response
  | 0, w => retry_attempt oracle f w retryTerminal
  | 1, w => retry_attempt oracle f w retryTerminal
  | b + 2, w =>
    retry_attempt oracle f w (fun sr =>
      if sr.2.status = 400 then retryTerminal sr
      else retry_go oracle f (b + 1) sr.1)

/-- `retry_call` (src/src/util.rs lines 45-76): the loop entered with
`i = 0`, i.e. three total attempts available. -/
def retry_call (oracle : Oracle) (f : World → World × Except Error (Request × Body))
    (w : World) : World × Except Error Response :=
  retry_go oracle f 3 w

/-- An attempt builder that consults the world but performs no effects of its
own and cannot fail — the shape of the builders in `Directory::from_url` and
`Directory::new_nonce`. -/
def pureBuilder (g : World → Request × Body) :
    World → World × Except Error (Request × Body) :=
  fun w => (w, .ok (g w))

/-- The nonces of the signed envelopes among a list of sent requests, in
order. -/
def sentNonces (l : List (Request × Body)) : List String :=
  l.filterMap (fun p => Option.map (fun j => j.nonce) p.2)

/-- The value `n` is the replay-nonce the oracle answered for the `i`-th
request of the trace `l`. -/
def nonceAt (oracle : Oracle) (l : List (Request × Body)) (i : Nat) (n : String) : Prop :=
  ∃ p, l[i]? = some p ∧ (oracle i p.1 p.2).header "replay-nonce" = some n

/-- Trace specification of a run from `w` to `w'`: the trace only grows, and
every envelope nonce appended during the run was answered by the oracle at a
fresh position of the trace, all such nonces being pairwise distinct. -/
def nonceSpec (oracle : Oracle) (w w' : World) : Prop :=
  (∃ t, w'.sent = w.sent ++ t) ∧
  (∀ n ∈ sentNonces (w'.sent.drop w.sent.length),
    ∃ i, w.sent.length ≤ i ∧ i < w'.sent.length ∧ nonceAt oracle w'.sent i n) ∧
  (sentNonces (w'.sent.drop w.sent.length)).Pairwise (fun a b => a ≠ b)

/-! ## The directory (src/src/dir.rs) -/

/-- Modelled from the spec: the `Persist` capability (src/persist.rs is not
among the provided sources).  Spec section 6: `get(handle) -> optional
bytes`, `put(handle, bytes) -> success/failure`; the store is external, so
its answers are fixed functions of the handle (and bytes). -/
structure Persist where
  get : PersistKey → Except Error (Option Bytes)
  put : PersistKey → Bytes → Except Error Unit

/-- Modelled from the spec: `ApiDirectory` (src/api.rs is not among the
provided sources).  Spec section 3: at minimum the new-nonce, new-account and
new-order endpoints; additional entries are passed through opaquely and do
not participate in the modelled operations. -/
structure ApiDirectory where
  newNonce : String
  newAccount : String
  newOrder : String
  deriving DecidableEq

/-- `DirectoryUrl` (src/src/dir.rs lines 14-23). -/
inductive DirectoryUrl where
  | LetsEncrypt
  | LetsEncryptStaging
  | Other (s : String)
  deriving DecidableEq

/-- `DirectoryUrl::to_url` (src/src/dir.rs lines 26-32). -/
def DirectoryUrl.to_url : DirectoryUrl → String
  | .LetsEncrypt => "https://acme-v02.api.letsencrypt.org/directory"
  | .LetsEncryptStaging => "https://acme-staging-v02.api.letsencrypt.org/directory"
  | .Other s => s

/-- `Directory` (src/src/dir.rs line 37): a persistence implementation and
the fetched directory document (fields `.0` and `.1`). -/
structure Directory where
  persist : Persist
  api : ApiDirectory

/-- The external decoders the core relies on (serde implementations in
src/api.rs, not among the provided sources), together with the network
oracle. -/
structure Env where
  oracle : Oracle
  decAccount : String → Except String ApiAccount

/-- `Account` (src/acc.rs is not among the provided sources; the spec's
AccountIdentity, section 3): directory reference, contact identifier, the
account key with its key id set, and the server-returned account record. -/
structure Account where
  dir : Directory
  contact_email : String
  key : AcmeKey
  api_account : ApiAccount

/-- `Account::new` as called at src/src/dir.rs lines 107-112. -/
def Account.new (dir : Directory) (contact_email : String) (key : AcmeKey)
    (api_account : ApiAccount) : Account :=
  ⟨dir, contact_email, key, api_account⟩

/-- `Directory::from_url` (src/src/dir.rs lines 41-46); `decDir` is the serde
decoder for the directory document. -/
def Directory.from_url (persist : Persist) (oracle : Oracle)
    (decDir : String → Except String ApiDirectory) (url : DirectoryUrl) (w : World) :
    World × Except Error Directory :=
  match retry_call oracle (fun w => (w, .ok (ureqGet url.to_url, (none : Body)))) w with
  | (w1, .error e) => (w1, .error e)
  | (w1, .ok res) =>
    match read_json decDir res with
    | .error e => (w1, .error e)
    | .ok api_dir => (w1, .ok ⟨persist, api_dir⟩)

/-- `Directory::new_nonce` (src/src/dir.rs lines 115-119): HEAD the new-nonce
endpoint through `retry_call` and extract the replay-nonce header. -/
def Directory.new_nonce (d : Directory) (oracle : Oracle) (w : World) :
    World × Except Error String :=
  match retry_call oracle (fun w => (w, .ok (ureqHead d.api.newNonce, (none : Body)))) w with
  | (w1, .error e) => (w1, .error e)
  | (w1, .ok res) => (w1, expect_header res "replay-nonce")

/-- The persistence handle built at src/src/dir.rs line 60:
`PersistKey::new(&contact_email, PersistKind::PrivateKey, "acme_account")`. -/
def accountPemKey (contact_email : String) : PersistKey :=
  ⟨contact_email, .PrivateKey, "acme_account"⟩

/-- The key acquisition of src/src/dir.rs lines 63-74: read a persisted PEM
if one exists, otherwise use the freshly generated key. -/
def loadOrCreateKey (pemOpt : Option Bytes) (freshKey : KeyMaterial) : Except Error AcmeKey :=
  match pemOpt with
  | some pem => AcmeKey.from_pem pem
  | none => .ok (AcmeKey.new freshKey)

/-- The attempt builder closure of src/src/dir.rs lines 84-92: fetch a fresh
nonce, build the jwk-form signed envelope over the registration payload, and
describe the POST to the new-account endpoint with the jose content type. -/
def accountAttempt (d : Directory) (env : Env) (acme_key : AcmeKey) (acc : ApiAccount) :
    World → World × Except Error (Request × Body) := fun w =>
  match d.new_nonce env.oracle w with
  | (w1, .error e) => (w1, .error e)
  | (w1, .ok nonce) =>
    match make_jws_jwk d.api.newAccount nonce acme_key acc with
    | .error e => (w1, .error e)
    | .ok body =>
      (w1, .ok ({ ureqPost d.api.newAccount with contentType := some "application/jose+json" },
        some body))

/-- `Directory::account` (src/src/dir.rs lines 58-113): get or create the
account key, call the new-account endpoint through `retry_call` (re-building
nonce and envelope on every attempt), extract the key id from the location
header, decode the account record, set the key id, persist a newly created
key, and assemble the account.  `freshKey` is the material openssl would
generate when no persisted key exists. -/
def Directory.account (d : Directory) (env : Env) (contact_email : String)
    (freshKey : KeyMaterial) (w : World) : World × Except Error Account :=
  let pem_key := accountPemKey contact_email
  match d.persist.get pem_key with
  | .error e => (w, .error e)
  | .ok pemOpt =>
    let is_new := pemOpt.isNone
    match loadOrCreateKey pemOpt freshKey with
    | .error e => (w, .error e)
    | .ok acme_key =>
      let acc : ApiAccount := ⟨["mailto:" ++ contact_email], some true⟩
      match retry_call env.oracle (accountAttempt d env acme_key acc) w with
      | (w2, .error e) => (w2, .error e)
      | (w2, .ok res) =>
        match expect_header res "location" with
        | .error e => (w2, .error e)
        | .ok kid =>
          match read_json env.decAccount res with
          | .error e => (w2, .error e)
          | .ok api_account =>
            let acme_key2 := acme_key.set_key_id kid
            if is_new then
              let pem := acme_key2.to_pem
              let w3 : World := { w2 with puts := w2.puts ++ [(pem_key, pem)] }
              match d.persist.put pem_key pem with
              | .error e => (w3, .error e)
              | .ok _ => (w3, .ok (Account.new d contact_email acme_key2 api_account))
            else (w2, .ok (Account.new d contact_email acme_key2 api_account))

/-! ## Concrete fixtures used by the witnesses -/

/-- A successful new-nonce response carrying the given replay-nonce. -/
def nonceResp (n : String) : Response := ⟨200, [("replay-nonce", n)], "", false⟩

/-- A successful registration response with a location header. -/
def acctResp : Response := ⟨200, [("location", "kid-1")], "acct-body", false⟩

/-- An authority that answers the first request with a nonce and every later
request with a successful registration response. -/
def okOracle : Oracle := fun i _ _ => if i = 0 then nonceResp "nonce-0" else acctResp

/-- An authority whose every response is a transient server failure. -/
def failOracle : Oracle := fun _ _ _ => ⟨500, [], "boom", false⟩

/-- An authority whose every response is the terminal bad-request status. -/
def badOracle : Oracle := fun _ _ _ => ⟨400, [], "bad", false⟩

/-- An authority whose responses succeed but carry no headers at all. -/
def missOracle : Oracle := fun _ _ _ => ⟨200, [], "", false⟩

/-- A store holding nothing, whose writes succeed. -/
def persistEmpty : Persist := ⟨fun _ => .ok none, fun _ _ => .ok ()⟩

def dirFix : Directory := ⟨persistEmpty, ⟨"urlN", "urlA", "urlO"⟩⟩

def envFix : Env := ⟨okOracle, fun _ => .ok ApiAccount.default⟩

/-! ## Small helper lemmas -/

theorem pemDecode_pemEncode (k : KeyMaterial) : pemDecode (pemEncode k) = .ok k := rfl

theorem expect_header_ok_iff (res : Response) (name v : String) :
    expect_header res name = .ok v ↔ res.header name = some v := by
  unfold expect_header
  cases hres : res.header name <;> simp

theorem expect_header_missing_iff (res : Response) (name : String) :
    expect_header res name = .error (.MissingField ("Missing header: " ++ name)) ↔
      res.header name = none := by
  unfold expect_header
  cases hres : res.header name <;> simp

/-! ## Claim theorems -/

/-- Claim C7: for every `AcmeKey` (whether or not its key id is set),
`from_pem (to_pem k)` succeeds and yields a key with the same private-key
material and no key id: `to_pem` serializes only the private key, so the key
id is never persisted. -/
theorem from_pem_to_pem_roundtrip (k : AcmeKey) :
    AcmeKey.from_pem k.to_pem = .ok ⟨k.key, none⟩ := rfl

/-- Claim C9: `AcmeKey::key_id` panics (unwraps `None`) exactly when the key
id has not been set; it returns the stored identifier when `set_key_id` has
run. -/
theorem key_id_unwrap_discipline (k k' : AcmeKey) (s : String)
    (hnone : k.keyId = none) (hsome : k'.keyId = some s) :
    k.key_id = .error ⟨"called Option.unwrap on a None value"⟩ ∧
    k'.key_id = .ok s ∧
    ∀ kid, (k.set_key_id kid).key_id = .ok kid := by
  refine ⟨?_, ?_, fun kid => ?_⟩
  · simp [AcmeKey.key_id, hnone]
  · simp [AcmeKey.key_id, hsome]
  · simp [AcmeKey.key_id, AcmeKey.set_key_id]

/-- Witness for C9 at a concrete key. -/
theorem key_id_unwrap_discipline_witness :
    (AcmeKey.new [1, 2]).keyId = none ∧
    ((AcmeKey.new [1, 2]).set_key_id "kid").keyId = some "kid" ∧
    (AcmeKey.new [1, 2]).key_id = .error ⟨"called Option.unwrap on a None value"⟩ ∧
    ((AcmeKey.new [1, 2]).set_key_id "kid").key_id = .ok "kid" := by
  have h := key_id_unwrap_discipline (AcmeKey.new [1, 2])
    ((AcmeKey.new [1, 2]).set_key_id "kid") "kid" rfl rfl
  exact ⟨rfl, rfl, h.1, h.2.1⟩

/-- Claim C10: `read_json` never surfaces a transport error: it decodes
whatever body text the read captured (the io error is discarded), so its
result is exactly the decoder's result on that possibly-truncated string,
its only failure mode is a `JsonDecode` error, and whether an io error
occurred during the read does not change the outcome. -/
theorem read_json_ignores_read_error {α : Type} (dec : String → Except String α)
    (res : Response) :
    read_json dec res =
      (match dec res.bodyRead with
       | .ok v => .ok v
       | .error msg => .error (.JsonDecode msg)) ∧
    (∀ e, read_json dec res = .error e → ∃ msg, e = Error.JsonDecode msg) ∧
    read_json dec { res with readErr := true } = read_json dec { res with readErr := false } := by
  refine ⟨rfl, ?_, rfl⟩
  intro e h
  simp only [read_json, safe_read_string, readToString] at h
  cases hd : dec res.bodyRead with
  | ok v => rw [hd] at h; exact absurd h (by simp)
  | error msg =>
    rw [hd] at h
    refine ⟨msg, ?_⟩
    cases h
    rfl

/-- Witness for C10: a decoder failure on a body whose read hit an io error
surfaces as a `JsonDecode` error, never as a transport error. -/
theorem read_json_ignores_read_error_witness :
    read_json (fun _ => (.error "bad" : Except String ApiAccount))
        ⟨200, [], "trunc", true⟩ = .error (Error.JsonDecode "bad") := by
  have h := read_json_ignores_read_error
    (fun _ => (.error "bad" : Except String ApiAccount)) ⟨200, [], "trunc", true⟩
  exact h.1

/-- Claim C6: `expect_header` succeeds exactly when the named header is
present and fails with the `MissingField` error exactly when it is absent;
consequently `new_nonce` maps a successful response that lacks the
replay-nonce header to a `MissingField` error — no panic, no default. -/
theorem new_nonce_missing_header (res res' : Response) (name : String)
    (d : Directory) (oracle : Oracle) (w w' : World)
    (hrun : retry_call oracle (fun w => (w, .ok (ureqHead d.api.newNonce, (none : Body)))) w
      = (w', .ok res'))
    (hmiss : res'.header "replay-nonce" = none) :
    (∀ v, expect_header res name = .ok v ↔ res.header name = some v) ∧
    (expect_header res name = .error (.MissingField ("Missing header: " ++ name)) ↔
      res.header name = none) ∧
    d.new_nonce oracle w = (w', .error (.MissingField "Missing header: replay-nonce")) := by
  refine ⟨fun v => expect_header_ok_iff res name v, expect_header_missing_iff res name, ?_⟩
  unfold Directory.new_nonce
  rw [hrun]
  simp [expect_header, hmiss]

/-- Witness for C6: a concrete successful nonce fetch whose response has no
replay-nonce header yields the `MissingField` error. -/
theorem new_nonce_missing_header_witness :
    dirFix.new_nonce missOracle World.empty =
      (⟨[(⟨.HEAD, "urlN", none, 30000, 30000, 30000⟩, none)], []⟩,
        .error (.MissingField "Missing header: replay-nonce")) := by
  exact (new_nonce_missing_header ⟨200, [], "", false⟩ ⟨200, [], "", false⟩ "x"
    dirFix missOracle World.empty _ rfl rfl).2.2

/-! ## Base64url roundtrip (claim C8) -/

theorem decChar_encChar (v : Nat) (hv : v < 64) : decChar (encChar v) = some v := by
  interval_cases v <;> rfl

theorem b64DecodeList_b64EncodeList :
    ∀ bs : List Nat, (∀ b ∈ bs, b < 256) → b64DecodeList (b64EncodeList bs) = .ok bs := by
  intro bs
  induction bs using b64EncodeList.induct with
  | case1 => intro _; rfl
  | case2 b1 =>
    intro h
    simp only [List.mem_cons, List.not_mem_nil, or_false, forall_eq] at h
    simp only [b64EncodeList, b64DecodeList,
      decChar_encChar (b1 / 4) (by omega), decChar_encChar (b1 % 4 * 16) (by omega)]
    have : b1 / 4 * 4 + b1 % 4 * 16 / 16 = b1 := by omega
    rw [this]
  | case3 b1 b2 =>
    intro h
    simp only [List.mem_cons, List.not_mem_nil, or_false, forall_eq_or_imp, forall_eq] at h
    obtain ⟨h1, h2⟩ := h
    simp only [b64EncodeList, b64DecodeList,
      decChar_encChar (b1 / 4) (by omega),
      decChar_encChar (b1 % 4 * 16 + b2 / 16) (by omega),
      decChar_encChar (b2 % 16 * 4) (by omega)]
    have e1 : b1 / 4 * 4 + (b1 % 4 * 16 + b2 / 16) / 16 = b1 := by omega
    have e2 : (b1 % 4 * 16 + b2 / 16) % 16 * 16 + b2 % 16 * 4 / 4 = b2 := by omega
    rw [e1, e2]
  | case4 b1 b2 b3 rest ih =>
    intro h
    simp only [List.mem_cons, forall_eq_or_imp] at h
    obtain ⟨h1, h2, h3, hrest⟩ := h
    have ih2 := ih (fun b hb => hrest b hb)
    simp only [b64EncodeList, b64DecodeList,
      decChar_encChar (b1 / 4) (by omega),
      decChar_encChar (b1 % 4 * 16 + b2 / 16) (by omega),
      decChar_encChar (b2 % 16 * 4 + b3 / 64) (by omega),
      decChar_encChar (b3 % 64) (by omega), ih2]
    have e1 : b1 / 4 * 4 + (b1 % 4 * 16 + b2 / 16) / 16 = b1 := by omega
    have e2 : (b1 % 4 * 16 + b2 / 16) % 16 * 16 + (b2 % 16 * 4 + b3 / 64) / 4 = b2 := by omega
    have e3 : (b2 % 16 * 4 + b3 / 64) % 4 * 64 + b3 % 64 = b3 := by omega
    rw [e1, e2, e3]

/-- Claim C8: for every byte sequence (including the empty one), decoding the
URL-safe unpadded base64 encoding returns exactly the original bytes. -/
theorem base64url_roundtrip (bs : Bytes) (h : ∀ b ∈ bs, b < 256) :
    unbase64url (base64url bs) = .ok bs := by
  unfold unbase64url base64url
  rw [show (String.mk (b64EncodeList bs)).toList = b64EncodeList bs from rfl]
  rw [b64DecodeList_b64EncodeList bs h]

/-- Witness for C8 at a concrete byte sequence exercising a full chunk and a
remainder. -/
theorem base64url_roundtrip_witness :
    (∀ b ∈ ([0, 61, 255, 77] : Bytes), b < 256) ∧
    unbase64url (base64url [0, 61, 255, 77]) = .ok [0, 61, 255, 77] := by
  exact ⟨by decide, base64url_roundtrip [0, 61, 255, 77] (by decide)⟩

/-! ## Stepping lemmas for the retry loop -/

theorem retry_go_step_retry (oracle : Oracle)
    (f : World → World × Except Error (Request × Body)) (b : Nat) (w w1 : World)
    (req : Request) (body : Body)
    (hf : f w = (w1, .ok (req, body)))
    (hok : (oracle w1.sent.length (configure_req req) body).ok = false)
    (h400 : (oracle w1.sent.length (configure_req req) body).status ≠ 400) :
    retry_go oracle f (b + 2) w =
      retry_go oracle f (b + 1) { w1 with sent := w1.sent ++ [(configure_req req, body)] } := by
  simp only [retry_go, retry_attempt, hf, World.send, hok, Bool.false_eq_true, if_false,
    if_neg h400]

theorem retry_go_step_400 (oracle : Oracle)
    (f : World → World × Except Error (Request × Body)) (b : Nat) (w w1 : World)
    (req : Request) (body : Body)
    (hf : f w = (w1, .ok (req, body)))
    (hok : (oracle w1.sent.length (configure_req req) body).ok = false)
    (h400 : (oracle w1.sent.length (configure_req req) body).status = 400) :
    retry_go oracle f (b + 2) w =
      ({ w1 with sent := w1.sent ++ [(configure_req req, body)] },
        .error (callFailed 400
          (oracle w1.sent.length (configure_req req) body).bodyRead)) := by
  simp only [retry_go, retry_attempt, hf, World.send, hok, Bool.false_eq_true, if_false,
    if_pos h400, retryTerminal, safe_read_string, readToString, h400, if_true]

theorem retry_go_last (oracle : Oracle)
    (f : World → World × Except Error (Request × Body)) (w w1 : World)
    (req : Request) (body : Body)
    (hf : f w = (w1, .ok (req, body)))
    (hok : (oracle w1.sent.length (configure_req req) body).ok = false) :
    retry_go oracle f 1 w =
      ({ w1 with sent := w1.sent ++ [(configure_req req, body)] },
        .error (callFailed (oracle w1.sent.length (configure_req req) body).status
          (oracle w1.sent.length (configure_req req) body).bodyRead)) := by
  simp only [retry_go, retry_attempt, hf, World.send, hok, Bool.false_eq_true, if_false,
    retryTerminal, safe_read_string, readToString]

/-- Claim C2: when every response is a non-success, non-terminal failure,
`retry_call` makes exactly three attempts — three requests leave, with no
intervening work besides rebuilding the attempt — and returns the `Call`
error built from the status and body of the third (final) response. -/
theorem retry_call_three_attempts (oracle : Oracle) (g : World → Request × Body) (w : World)
    (hfail : ∀ i r b, (oracle i r b).ok = false ∧ (oracle i r b).status ≠ 400) :
    ∃ x1 x2 x3 : Request × Body,
      (retry_call oracle (pureBuilder g) w).1.sent = w.sent ++ [x1, x2, x3] ∧
      (retry_call oracle (pureBuilder g) w).2 =
        .error (callFailed (oracle (w.sent.length + 2) x3.1 x3.2).status
          (oracle (w.sent.length + 2) x3.1 x3.2).bodyRead) := by
  have hx1 : pureBuilder g w = (w, .ok ((g w).1, (g w).2)) := rfl
  set x1 : Request × Body := (configure_req (g w).1, (g w).2) with hx1d
  set w1 : World := { w with sent := w.sent ++ [x1] } with hw1
  have hx2 : pureBuilder g w1 = (w1, .ok ((g w1).1, (g w1).2)) := rfl
  set x2 : Request × Body := (configure_req (g w1).1, (g w1).2) with hx2d
  set w2 : World := { w1 with sent := w1.sent ++ [x2] } with hw2
  have hx3 : pureBuilder g w2 = (w2, .ok ((g w2).1, (g w2).2)) := rfl
  set x3 : Request × Body := (configure_req (g w2).1, (g w2).2) with hx3d
  have s1 : retry_go oracle (pureBuilder g) 3 w = retry_go oracle (pureBuilder g) 2 w1 := by
    exact retry_go_step_retry oracle (pureBuilder g) 1 w w (g w).1 (g w).2 hx1
      (hfail _ _ _).1 (hfail _ _ _).2
  have s2 : retry_go oracle (pureBuilder g) 2 w1 = retry_go oracle (pureBuilder g) 1 w2 := by
    exact retry_go_step_retry oracle (pureBuilder g) 0 w1 w1 (g w1).1 (g w1).2 hx2
      (hfail _ _ _).1 (hfail _ _ _).2
  have s3 : retry_go oracle (pureBuilder g) 1 w2 =
      ({ w2 with sent := w2.sent ++ [x3] },
        .error (callFailed (oracle w2.sent.length x3.1 x3.2).status
          (oracle w2.sent.length x3.1 x3.2).bodyRead)) := by
    exact retry_go_last oracle (pureBuilder g) w2 w2 (g w2).1 (g w2).2 hx3 (hfail _ _ _).1
  have hlen : w2.sent.length = w.sent.length + 2 := by
    simp [hw2, hw1, List.length_append]
  refine ⟨x1, x2, x3, ?_, ?_⟩
  · show (retry_go oracle (pureBuilder g) 3 w).1.sent = _
    rw [s1, s2, s3]
    simp [hw2, hw1, List.append_assoc]
  · show (retry_go oracle (pureBuilder g) 3 w).2 = _
    rw [s1, s2, s3, hlen]

/-- Witness for C2: an authority answering 500 three times exhausts the
budget after exactly three requests and reports the final status and body. -/
theorem retry_call_three_attempts_witness :
    (∀ i r b, (failOracle i r b).ok = false ∧ (failOracle i r b).status ≠ 400) ∧
    (∃ x1 x2 x3 : Request × Body,
      (retry_call failOracle (pureBuilder (fun _ => (ureqGet "u", none))) World.empty).1.sent
        = World.empty.sent ++ [x1, x2, x3] ∧
      (retry_call failOracle (pureBuilder (fun _ => (ureqGet "u", none))) World.empty).2 =
        .error (callFailed (failOracle (World.empty.sent.length + 2) x3.1 x3.2).status
          (failOracle (World.empty.sent.length + 2) x3.1 x3.2).bodyRead)) ∧
    (retry_call failOracle (pureBuilder (fun _ => (ureqGet "u", none))) World.empty).1.sent.length
      = 3 ∧
    (retry_call failOracle (pureBuilder (fun _ => (ureqGet "u", none))) World.empty).2
      = .error (.Call "Call failed (500): boom") := by
  have hfail : ∀ i r b, (failOracle i r b).ok = false ∧ (failOracle i r b).status ≠ 400 :=
    fun _ _ _ => ⟨rfl, by simp [failOracle]⟩
  exact ⟨hfail, retry_call_three_attempts failOracle (fun _ => (ureqGet "u", none))
    World.empty hfail, by rfl, by decide⟩

/-- Claim C4: a response in the bad-request class is terminal — `retry_call`
returns the `Call` error after that single attempt, sending exactly one
request and consuming no further attempts. -/
theorem retry_call_bad_request_terminal (oracle : Oracle) (g : World → Request × Body)
    (w : World)
    (h400 : (oracle w.sent.length (configure_req (g w).1) (g w).2).status = 400) :
    (retry_call oracle (pureBuilder g) w).1.sent
      = w.sent ++ [(configure_req (g w).1, (g w).2)] ∧
    (retry_call oracle (pureBuilder g) w).2 =
      .error (callFailed 400
        (oracle w.sent.length (configure_req (g w).1) (g w).2).bodyRead) := by
  have hok : (oracle w.sent.length (configure_req (g w).1) (g w).2).ok = false := by
    rw [Response.ok, h400]
    decide
  have hstep := retry_go_step_400 oracle (pureBuilder g) 1 w w (g w).1 (g w).2 rfl hok h400
  constructor
  · show (retry_go oracle (pureBuilder g) 3 w).1.sent = _
    rw [hstep]
  · show (retry_go oracle (pureBuilder g) 3 w).2 = _
    rw [hstep]

/-- Witness for C4: a concrete bad-request answer fails after exactly one
request with the `Call` error carrying status 400 and the body. -/
theorem retry_call_bad_request_terminal_witness :
    (badOracle 0 (configure_req (ureqGet "u")) none).status = 400 ∧
    (retry_call badOracle (pureBuilder (fun _ => (ureqGet "u", none))) World.empty).1.sent.length
      = 1 ∧
    (retry_call badOracle (pureBuilder (fun _ => (ureqGet "u", none))) World.empty).2
      = .error (.Call "Call failed (400): bad") := by
  have h := retry_call_bad_request_terminal badOracle (fun _ => (ureqGet "u", none))
    World.empty rfl
  refine ⟨rfl, ?_, ?_⟩
  · rw [h.1]; rfl
  · rw [h.2]; decide

/-! ## Persistence-write preservation through the retry loop -/

theorem retryTerminal_fst (sr : World × Response) : (retryTerminal sr).1 = sr.1 := rfl

theorem retry_attempt_puts (oracle : Oracle)
    (f : World → World × Except Error (Request × Body)) (w : World)
    (next : World × Response → World × Except Error Response)
    (hf : ∀ w, ((f w).1).puts = w.puts)
    (hnext : ∀ sr, ((next sr).1).puts = sr.1.puts) :
    ((retry_attempt oracle f w next).1).puts = w.puts := by
  unfold retry_attempt
  have hfw := hf w
  rcases hw : f w with ⟨w1, r⟩
  rw [hw] at hfw
  cases r with
  | error e => simpa using hfw
  | ok rb =>
    rcases rb with ⟨req, body⟩
    simp only [World.send]
    split
    · simpa using hfw
    · rw [hnext]
      simpa using hfw

theorem retry_go_puts (oracle : Oracle)
    (f : World → World × Except Error (Request × Body))
    (hf : ∀ w, ((f w).1).puts = w.puts) :
    ∀ budget w, ((retry_go oracle f budget w).1).puts = w.puts := by
  intro budget
  induction budget using Nat.strong_induction_on with
  | _ budget ih =>
    intro w
    match budget with
    | 0 => exact retry_attempt_puts oracle f w retryTerminal hf (fun sr => rfl)
    | 1 => exact retry_attempt_puts oracle f w retryTerminal hf (fun sr => rfl)
    | b + 2 =>
      refine retry_attempt_puts oracle f w _ hf (fun sr => ?_)
      split
      · rfl
      · exact ih (b + 1) (by omega) sr.1

theorem new_nonce_puts (d : Directory) (oracle : Oracle) (w : World) :
    ((d.new_nonce oracle w).1).puts = w.puts := by
  unfold Directory.new_nonce retry_call
  have h := retry_go_puts oracle
    (fun w => (w, .ok (ureqHead d.api.newNonce, (none : Body)))) (fun _ => rfl) 3 w
  rcases hr : retry_go oracle
      (fun w => (w, .ok (ureqHead d.api.newNonce, (none : Body)))) 3 w with ⟨w1, r⟩
  rw [hr] at h
  cases r <;> simpa using h

theorem accountAttempt_puts (d : Directory) (env : Env) (acme_key : AcmeKey)
    (acc : ApiAccount) (w : World) :
    ((accountAttempt d env acme_key acc w).1).puts = w.puts := by
  unfold accountAttempt
  have h := new_nonce_puts d env.oracle w
  rcases hr : d.new_nonce env.oracle w with ⟨w1, r⟩
  rw [hr] at h
  cases r with
  | error e => simpa using h
  | ok nonce => simpa [make_jws_jwk] using h

theorem account_retry_puts (d : Directory) (env : Env) (acme_key : AcmeKey)
    (acc : ApiAccount) (w : World) :
    ((retry_call env.oracle (accountAttempt d env acme_key acc) w).1).puts = w.puts :=
  retry_go_puts env.oracle (accountAttempt d env acme_key acc)
    (fun w => accountAttempt_puts d env acme_key acc w) 3 w

/-! ## Case analysis of Directory::account -/

theorem account_error_puts (d : Directory) (env : Env) (email : String)
    (fresh : KeyMaterial) (w w' : World) (e : Error)
    (hput : ∀ pk pem, d.persist.put pk pem = .ok ())
    (hrun : d.account env email fresh w = (w', .error e)) :
    w'.puts = w.puts := by
  simp only [Directory.account] at hrun
  split at hrun
  · simp only [Prod.mk.injEq] at hrun
    rw [← hrun.1]
  · rename_i pemOpt hget
    split at hrun
    · simp only [Prod.mk.injEq] at hrun
      rw [← hrun.1]
    · rename_i acme_key hkey
      have hretry := account_retry_puts d env acme_key
        ⟨["mailto:" ++ email], some true⟩ w
      split at hrun
      · rename_i w2 e2 hr
        rw [hr] at hretry
        simp only [Prod.mk.injEq] at hrun
        rw [← hrun.1]
        exact hretry
      · rename_i w2 res hr
        rw [hr] at hretry
        split at hrun
        · simp only [Prod.mk.injEq] at hrun
          rw [← hrun.1]
          exact hretry
        · rename_i kid hkid
          split at hrun
          · simp only [Prod.mk.injEq] at hrun
            rw [← hrun.1]
            exact hretry
          · rename_i api hapi
            split at hrun
            · split at hrun
              · rename_i e3 hp
                rw [hput] at hp
                cases hp
              · simp only [Prod.mk.injEq] at hrun
                exact absurd hrun.2 (by simp)
            · simp only [Prod.mk.injEq] at hrun
              exact absurd hrun.2 (by simp)

theorem account_loaded_key_puts (d : Directory) (env : Env) (email : String)
    (fresh : KeyMaterial) (w w' : World) (r : Except Error Account) (pem : Bytes)
    (hget : d.persist.get (accountPemKey email) = .ok (some pem))
    (hrun : d.account env email fresh w = (w', r)) :
    w'.puts = w.puts := by
  simp only [Directory.account, hget, loadOrCreateKey, Option.isNone_some] at hrun
  split at hrun
  · simp only [Prod.mk.injEq] at hrun
    rw [← hrun.1]
  · rename_i acme_key hkey
    have hretry := account_retry_puts d env acme_key
      ⟨["mailto:" ++ email], some true⟩ w
    split at hrun
    · rename_i w2 e2 hr
      rw [hr] at hretry
      simp only [Prod.mk.injEq] at hrun
      rw [← hrun.1]
      exact hretry
    · rename_i w2 res hr
      rw [hr] at hretry
      split at hrun
      · simp only [Prod.mk.injEq] at hrun
        rw [← hrun.1]
        exact hretry
      · split at hrun
        · simp only [Prod.mk.injEq] at hrun
          rw [← hrun.1]
          exact hretry
        · simp only [Bool.false_eq_true, if_false, Prod.mk.injEq] at hrun
          rw [← hrun.1]
          exact hretry

theorem account_ok_cases (d : Directory) (env : Env) (email : String)
    (fresh : KeyMaterial) (w w' : World) (a : Account)
    (hrun : d.account env email fresh w = (w', .ok a)) :
    ∃ (acme_key : AcmeKey) (kid : String) (api_account : ApiAccount),
      a = Account.new d email (acme_key.set_key_id kid) api_account ∧
      ((d.persist.get (accountPemKey email) = .ok none ∧
          w'.puts = w.puts ++ [(accountPemKey email, (acme_key.set_key_id kid).to_pem)]) ∨
        ((∃ pem, d.persist.get (accountPemKey email) = .ok (some pem)) ∧
          w'.puts = w.puts)) := by
  simp only [Directory.account] at hrun
  split at hrun
  · simp only [Prod.mk.injEq] at hrun
    exact absurd hrun.2 (by simp)
  · rename_i pemOpt hget
    split at hrun
    · simp only [Prod.mk.injEq] at hrun
      exact absurd hrun.2 (by simp)
    · rename_i acme_key hkey
      have hretry := account_retry_puts d env acme_key
        ⟨["mailto:" ++ email], some true⟩ w
      split at hrun
      · simp only [Prod.mk.injEq] at hrun
        exact absurd hrun.2 (by simp)
      · rename_i w2 res hr
        rw [hr] at hretry
        split at hrun
        · simp only [Prod.mk.injEq] at hrun
          exact absurd hrun.2 (by simp)
        · rename_i kid hkid
          split at hrun
          · simp only [Prod.mk.injEq] at hrun
            exact absurd hrun.2 (by simp)
          · rename_i api hapi
            split at hrun
            · rename_i hnew
              split at hrun
              · simp only [Prod.mk.injEq] at hrun
                exact absurd hrun.2 (by simp)
              · simp only [Prod.mk.injEq] at hrun
                obtain ⟨hw, ha⟩ := hrun
                refine ⟨acme_key, kid, api, ?_, ?_⟩
                · injection ha with ha2
                  exact ha2.symm
                · left
                  cases pemOpt with
                  | none =>
                    constructor
                    · exact hget
                    · rw [← hw]
                      have h2 : w2.puts = w.puts := by simpa using hretry
                      simp [h2]
                  | some pem => simp [Option.isNone] at hnew
            · rename_i hnew
              simp only [Prod.mk.injEq] at hrun
              obtain ⟨hw, ha⟩ := hrun
              refine ⟨acme_key, kid, api, ?_, ?_⟩
              · injection ha with ha2
                exact ha2.symm
              · right
                cases pemOpt with
                | none => simp [Option.isNone] at hnew
                | some pem =>
                  exact ⟨⟨pem, hget⟩, by rw [← hw]; exact hretry⟩

/-- Claim C3: a persistence write happens only in a bootstrap that created a
new key and only once the registration call, location-header extraction and
body decode have all succeeded — on any failure no write occurs (the put's
own success is assumed, since a failing put taints the run after the write),
and when a persisted key was loaded no write ever occurs. -/
theorem account_no_orphan_persist (d : Directory) (env : Env) (contact_email : String)
    (freshKey : KeyMaterial) (w w' : World)
    (hput : ∀ pk pem, d.persist.put pk pem = .ok ()) :
    (∀ pem r, d.persist.get (accountPemKey contact_email) = .ok (some pem) →
      d.account env contact_email freshKey w = (w', r) → w'.puts = w.puts) ∧
    (∀ e, d.account env contact_email freshKey w = (w', .error e) → w'.puts = w.puts) ∧
    (∀ a, d.persist.get (accountPemKey contact_email) = .ok none →
      d.account env contact_email freshKey w = (w', .ok a) →
      w'.puts = w.puts ++ [(accountPemKey contact_email, a.key.to_pem)]) := by
  refine ⟨?_, ?_, ?_⟩
  · intro pem r hget hrun
    exact account_loaded_key_puts d env contact_email freshKey w w' r pem hget hrun
  · intro e hrun
    exact account_error_puts d env contact_email freshKey w w' e hput hrun
  · intro a hget hrun
    obtain ⟨k, kid, api, ha, hcase⟩ := account_ok_cases d env contact_email freshKey w w' a hrun
    rcases hcase with ⟨-, hputs⟩ | ⟨⟨pem, hsome⟩, -⟩
    · rw [hputs, ha]
      rfl
    · rw [hget] at hsome
      exact absurd hsome (by simp)

/-- Witness for C3: a concrete bootstrap against an empty store succeeds and
performs exactly the one write of the registered key's PEM, after success. -/
theorem account_no_orphan_persist_witness :
    (∀ pk pem, dirFix.persist.put pk pem = .ok ()) ∧
    ((dirFix.account envFix "foo@bar.com" [1, 2, 3] World.empty).1.puts
        = World.empty.puts ++
          [(accountPemKey "foo@bar.com",
            (Account.new dirFix "foo@bar.com" ⟨[1, 2, 3], some "kid-1"⟩
              ApiAccount.default).key.to_pem)]) := by
  have hput : ∀ pk pem, dirFix.persist.put pk pem = .ok () := fun _ _ => rfl
  have h := (account_no_orphan_persist dirFix envFix "foo@bar.com" [1, 2, 3] World.empty
    (dirFix.account envFix "foo@bar.com" [1, 2, 3] World.empty).1 hput).2.2
  exact ⟨hput, h (Account.new dirFix "foo@bar.com" ⟨[1, 2, 3], some "kid-1"⟩
    ApiAccount.default) rfl rfl⟩

/-- Claim C5: the key id is absent on every freshly created or PEM-loaded
key, `set_key_id` stores exactly the given id (the only write, never a
clear), and a successful bootstrap returns a key whose id is set. -/
theorem acme_key_id_lifecycle (generated : KeyMaterial) (pem : Bytes) (a k : AcmeKey)
    (kid : String) (d : Directory) (env : Env) (email : String) (freshKey : KeyMaterial)
    (w w' : World) (acct : Account)
    (hpem : AcmeKey.from_pem pem = .ok a)
    (hrun : d.account env email freshKey w = (w', .ok acct)) :
    (AcmeKey.new generated).keyId = none ∧
    a.keyId = none ∧
    (k.set_key_id kid).keyId = some kid ∧
    acct.key.keyId.isSome = true := by
  refine ⟨rfl, ?_, rfl, ?_⟩
  · unfold AcmeKey.from_pem at hpem
    split at hpem
    · exact absurd hpem (by simp)
    · injection hpem with h2
      rw [← h2]
      rfl
  · obtain ⟨k2, kid2, api, ha, -⟩ := account_ok_cases d env email freshKey w w' acct hrun
    rw [ha]
    rfl

/-- Witness for C5 at a concrete loaded key and a concrete successful
bootstrap. -/
theorem acme_key_id_lifecycle_witness :
    (AcmeKey.new [9]).keyId = none ∧
    (AcmeKey.mk [7] none).keyId = none ∧
    ((AcmeKey.mk [7] none).set_key_id "kid-x").keyId = some "kid-x" ∧
    (Account.new dirFix "foo@bar.com" ⟨[1, 2, 3], some "kid-1"⟩
      ApiAccount.default).key.keyId.isSome = true := by
  exact acme_key_id_lifecycle [9] (pemEncode [7]) ⟨[7], none⟩ ⟨[7], none⟩ "kid-x"
    dirFix envFix "foo@bar.com" [1, 2, 3] World.empty
    (dirFix.account envFix "foo@bar.com" [1, 2, 3] World.empty).1
    (Account.new dirFix "foo@bar.com" ⟨[1, 2, 3], some "kid-1"⟩ ApiAccount.default)
    rfl rfl

/-! ## Nonce freshness across retry attempts (claim C1) -/

theorem nonceAt_append (oracle : Oracle) (l : List (Request × Body)) (i : Nat) (n : String)
    (t : List (Request × Body)) (hi : i < l.length) (h : nonceAt oracle l i n) :
    nonceAt oracle (l ++ t) i n := by
  obtain ⟨p, hp, hn⟩ := h
  refine ⟨p, ?_, hn⟩
  rw [List.getElem?_append, if_pos hi]
  exact hp

theorem sentNonces_none (t : List (Request × Body)) (h : ∀ p ∈ t, p.2 = (none : Body)) :
    sentNonces t = [] := by
  unfold sentNonces
  rw [List.filterMap_eq_nil_iff]
  intro p hp
  rw [h p hp]
  rfl

theorem sentNonces_append (a b : List (Request × Body)) :
    sentNonces (a ++ b) = sentNonces a ++ sentNonces b :=
  List.filterMap_append a b _

theorem retry_attempt_head_cases (oracle : Oracle) (url : String) (w : World)
    (next : World × Response → World × Except Error Response) :
    retry_attempt oracle (fun w => (w, .ok (ureqHead url, (none : Body)))) w next
      = if (oracle w.sent.length (configure_req (ureqHead url)) none).ok then
          ({ w with sent := w.sent ++ [(configure_req (ureqHead url), (none : Body))] },
            .ok (oracle w.sent.length (configure_req (ureqHead url)) none))
        else next
          ({ w with sent := w.sent ++ [(configure_req (ureqHead url), (none : Body))] },
            oracle w.sent.length (configure_req (ureqHead url)) none) := by
  simp only [retry_attempt, World.send]

theorem retry_go_head_spec (oracle : Oracle) (url : String) :
    ∀ budget w w' r,
      retry_go oracle (fun w => (w, .ok (ureqHead url, (none : Body)))) budget w = (w', r) →
      (∃ t, w'.sent = w.sent ++ t ∧ ∀ p ∈ t, p.2 = (none : Body)) ∧
      ∀ res, r = .ok res →
        ∃ i p, w.sent.length ≤ i ∧ i < w'.sent.length ∧
          w'.sent[i]? = some p ∧ res = oracle i p.1 p.2 := by
  intro budget
  induction budget using Nat.strong_induction_on with
  | _ budget ih =>
    intro w w' r h
    rcases budget with _ | _ | b
    case zero =>
      simp only [retry_go] at h
      rw [retry_attempt_head_cases] at h
      split at h
      · simp only [Prod.mk.injEq] at h
        obtain ⟨h1, h2⟩ := h
        subst h1
        subst h2
        refine ⟨⟨[(configure_req (ureqHead url), none)], rfl, by simp⟩, ?_⟩
        intro res hres
        injection hres with hres2
        refine ⟨w.sent.length, (configure_req (ureqHead url), none), le_refl _, ?_, ?_, ?_⟩
        · simp [List.length_append]
        · exact List.getElem?_concat_length w.sent _
        · rw [← hres2]
      · simp only [retryTerminal, safe_read_string, readToString, Prod.mk.injEq] at h
        obtain ⟨h1, h2⟩ := h
        subst h1
        subst h2
        refine ⟨⟨[(configure_req (ureqHead url), none)], rfl, by simp⟩, ?_⟩
        intro res hres
        exact absurd hres (by simp)
    case succ.zero =>
      simp only [retry_go] at h
      rw [retry_attempt_head_cases] at h
      split at h
      · simp only [Prod.mk.injEq] at h
        obtain ⟨h1, h2⟩ := h
        subst h1
        subst h2
        refine ⟨⟨[(configure_req (ureqHead url), none)], rfl, by simp⟩, ?_⟩
        intro res hres
        injection hres with hres2
        refine ⟨w.sent.length, (configure_req (ureqHead url), none), le_refl _, ?_, ?_, ?_⟩
        · simp [List.length_append]
        · exact List.getElem?_concat_length w.sent _
        · rw [← hres2]
      · simp only [retryTerminal, safe_read_string, readToString, Prod.mk.injEq] at h
        obtain ⟨h1, h2⟩ := h
        subst h1
        subst h2
        refine ⟨⟨[(configure_req (ureqHead url), none)], rfl, by simp⟩, ?_⟩
        intro res hres
        exact absurd hres (by simp)
    case succ.succ =>
      simp only [retry_go] at h
      rw [retry_attempt_head_cases] at h
      split at h
      · simp only [Prod.mk.injEq] at h
        obtain ⟨h1, h2⟩ := h
        subst h1
        subst h2
        refine ⟨⟨[(configure_req (ureqHead url), none)], rfl, by simp⟩, ?_⟩
        intro res hres
        injection hres with hres2
        refine ⟨w.sent.length, (configure_req (ureqHead url), none), le_refl _, ?_, ?_, ?_⟩
        · simp [List.length_append]
        · exact List.getElem?_concat_length w.sent _
        · rw [← hres2]
      · simp only [] at h
        split at h
        · simp only [retryTerminal, safe_read_string, readToString, Prod.mk.injEq] at h
          obtain ⟨h1, h2⟩ := h
          subst h1
          subst h2
          refine ⟨⟨[(configure_req (ureqHead url), none)], rfl, by simp⟩, ?_⟩
          intro res hres
          exact absurd hres (by simp)
        · have hih := ih (b + 1) (by omega) _ w' r h
          obtain ⟨⟨t, ht, htn⟩, hok⟩ := hih
          constructor
          · refine ⟨(configure_req (ureqHead url), none) :: t, ?_, ?_⟩
            · rw [ht]
              simp
            · intro p hp
              rcases List.mem_cons.mp hp with rfl | hp2
              · rfl
              · exact htn p hp2
          · intro res hres
            obtain ⟨i, p, hi1, hi2, hp, hresoracle⟩ := hok res hres
            refine ⟨i, p, ?_, hi2, hp, hresoracle⟩
            simp only [World.sent] at hi1
            calc w.sent.length
                ≤ (w.sent ++ [(configure_req (ureqHead url), (none : Body))]).length := by
                  simp [List.length_append]
              _ ≤ i := hi1

theorem new_nonce_spec (d : Directory) (oracle : Oracle) (w w' : World)
    (r : Except Error String)
    (hrun : d.new_nonce oracle w = (w', r)) :
    (∃ t, w'.sent = w.sent ++ t ∧ ∀ p ∈ t, p.2 = (none : Body)) ∧
    ∀ n, r = .ok n →
      ∃ i, w.sent.length ≤ i ∧ i < w'.sent.length ∧ nonceAt oracle w'.sent i n := by
  unfold Directory.new_nonce retry_call at hrun
  rcases hr : retry_go oracle (fun w => (w, .ok (ureqHead d.api.newNonce, (none : Body)))) 3 w
    with ⟨w1, r1⟩
  rw [hr] at hrun
  have hspec := retry_go_head_spec oracle d.api.newNonce 3 w w1 r1 hr
  cases r1 with
  | error e =>
    simp only [Prod.mk.injEq] at hrun
    obtain ⟨h1, h2⟩ := hrun
    subst h1
    subst h2
    refine ⟨hspec.1, ?_⟩
    intro n hn
    exact absurd hn (by simp)
  | ok res =>
    simp only [Prod.mk.injEq] at hrun
    obtain ⟨h1, h2⟩ := hrun
    subst h1
    subst h2
    refine ⟨hspec.1, ?_⟩
    intro n hn
    obtain ⟨i, p, hi1, hi2, hp, hres⟩ := hspec.2 res rfl
    have hhead : res.header "replay-nonce" = some n := (expect_header_ok_iff res _ n).mp hn
    exact ⟨i, hi1, hi2, p, hp, by rw [← hres]; exact hhead⟩

theorem accountAttempt_spec (d : Directory) (env : Env) (key : AcmeKey) (acc : ApiAccount)
    (w w1 : World) (r : Except Error (Request × Body))
    (hrun : accountAttempt d env key acc w = (w1, r)) :
    (∃ t, w1.sent = w.sent ++ t ∧ ∀ p ∈ t, p.2 = (none : Body)) ∧
    ∀ req body, r = .ok (req, body) →
      ∃ j, body = some j ∧ ∃ i, w.sent.length ≤ i ∧ i < w1.sent.length ∧
        nonceAt env.oracle w1.sent i j.nonce := by
  unfold accountAttempt at hrun
  rcases hn : d.new_nonce env.oracle w with ⟨wn, rn⟩
  rw [hn] at hrun
  have hnn := new_nonce_spec d env.oracle w wn rn hn
  cases rn with
  | error e =>
    simp only [Prod.mk.injEq] at hrun
    obtain ⟨h1, h2⟩ := hrun
    subst h1
    subst h2
    refine ⟨hnn.1, ?_⟩
    intro req body hb
    exact absurd hb (by simp)
  | ok nonce =>
    simp only [make_jws_jwk, Prod.mk.injEq] at hrun
    obtain ⟨h1, h2⟩ := hrun
    subst h1
    subst h2
    refine ⟨hnn.1, ?_⟩
    intro req body hb
    injection hb with hb2
    injection hb2 with hbreq hbbody
    refine ⟨⟨nonce, d.api.newAccount, some key.key, none, acc, key.key⟩, hbbody.symm, ?_⟩
    obtain ⟨i, hi1, hi2, hat⟩ := hnn.2 nonce rfl
    exact ⟨i, hi1, hi2, hat⟩

theorem account_single_envelope (oracle : Oracle) (w w1 : World)
    (t1 : List (Request × Body)) (x2 : Request × Body) (j : Jws) (i1 : Nat)
    (ht1 : w1.sent = w.sent ++ t1) (ht1n : ∀ p ∈ t1, p.2 = (none : Body))
    (hx2 : x2.2 = some j)
    (hi11 : w.sent.length ≤ i1) (hi12 : i1 < w1.sent.length)
    (hat1 : nonceAt oracle w1.sent i1 j.nonce) :
    (∃ t, (w1.sent ++ [x2]) = w.sent ++ t) ∧
    (∀ n ∈ sentNonces ((w1.sent ++ [x2]).drop w.sent.length),
      ∃ i, w.sent.length ≤ i ∧ i < (w1.sent ++ [x2]).length ∧
        nonceAt oracle (w1.sent ++ [x2]) i n) ∧
    (sentNonces ((w1.sent ++ [x2]).drop w.sent.length)).Pairwise (fun a b => a ≠ b) := by
  have hall : w1.sent ++ [x2] = w.sent ++ (t1 ++ [x2]) := by
    rw [ht1, List.append_assoc]
  have hdrop : (w1.sent ++ [x2]).drop w.sent.length = t1 ++ [x2] := by
    rw [hall]
    exact List.drop_left _ _
  have hnon : sentNonces (t1 ++ [x2]) = [j.nonce] := by
    rw [sentNonces_append, sentNonces_none t1 ht1n]
    simp [sentNonces, hx2]
  refine ⟨⟨t1 ++ [x2], hall⟩, ?_, ?_⟩
  · intro n hn
    rw [hdrop, hnon] at hn
    simp only [List.mem_singleton] at hn
    subst hn
    refine ⟨i1, hi11, ?_, ?_⟩
    · calc i1 < w1.sent.length := hi12
        _ ≤ (w1.sent ++ [x2]).length := by simp
    · exact nonceAt_append oracle w1.sent i1 j.nonce [x2] hi12 hat1
  · rw [hdrop, hnon]
    simp

theorem nonceSpec_extend (oracle : Oracle)
    (hfresh : ∀ i j r1 b1 r2 b2 n, i ≠ j →
      (oracle i r1 b1).header "replay-nonce" = some n →
      (oracle j r2 b2).header "replay-nonce" = some n → False)
    (w w1 w2 w' : World) (t1 : List (Request × Body)) (x2 : Request × Body) (j : Jws)
    (i1 : Nat)
    (ht1 : w1.sent = w.sent ++ t1) (ht1n : ∀ p ∈ t1, p.2 = (none : Body))
    (hx2 : x2.2 = some j)
    (hi11 : w.sent.length ≤ i1) (hi12 : i1 < w1.sent.length)
    (hat1 : nonceAt oracle w1.sent i1 j.nonce)
    (hw2 : w2.sent = w1.sent ++ [x2])
    (hrec : nonceSpec oracle w2 w') :
    nonceSpec oracle w w' := by
  obtain ⟨⟨t2, ht2⟩, hidx, hpw⟩ := hrec
  have hall : w'.sent = w.sent ++ (t1 ++ ([x2] ++ t2)) := by
    rw [ht2, hw2, ht1]
    simp [List.append_assoc]
  have hdrop : w'.sent.drop w.sent.length = t1 ++ ([x2] ++ t2) := by
    rw [hall]
    exact List.drop_left _ _
  have hdrop2 : w'.sent.drop w2.sent.length = t2 := by
    rw [ht2]
    exact List.drop_left _ _
  have hlen1 : w.sent.length ≤ w1.sent.length := by
    rw [ht1]
    simp
  have hlen2 : w1.sent.length < w2.sent.length := by
    rw [hw2]
    simp
  have hlenw : w2.sent.length ≤ w'.sent.length := by
    rw [ht2]
    simp
  have hx2n : sentNonces [x2] = [j.nonce] := by
    simp [sentNonces, hx2]
  have hsn : sentNonces (w'.sent.drop w.sent.length) = j.nonce :: sentNonces t2 := by
    rw [hdrop, sentNonces_append, sentNonces_none t1 ht1n, List.nil_append,
      sentNonces_append, hx2n]
    rfl
  have hat1w : nonceAt oracle w'.sent i1 j.nonce := by
    have hsent : w'.sent = w1.sent ++ ([x2] ++ t2) := by
      rw [ht2, hw2, List.append_assoc]
    rw [hsent]
    exact nonceAt_append oracle w1.sent i1 j.nonce _ hi12 hat1
  refine ⟨⟨t1 ++ ([x2] ++ t2), hall⟩, ?_, ?_⟩
  · intro n hn
    rw [hsn] at hn
    rcases List.mem_cons.mp hn with rfl | hn2
    · exact ⟨i1, hi11, by omega, hat1w⟩
    · obtain ⟨i, hi1, hi2, hat⟩ := hidx n (by rw [hdrop2]; exact hn2)
      exact ⟨i, by omega, hi2, hat⟩
  · rw [hsn, List.pairwise_cons]
    constructor
    · intro n hn2 heq
      obtain ⟨i, hi1, hi2, hat⟩ := hidx n (by rw [hdrop2]; exact hn2)
      obtain ⟨p1, hp1, hh1⟩ := hat1w
      obtain ⟨p2, hp2, hh2⟩ := hat
      refine hfresh i1 i p1.1 p1.2 p2.1 p2.2 j.nonce (by omega) hh1 ?_
      rw [heq]
      exact hh2
    · rw [← hdrop2]
      exact hpw

theorem retry_attempt_account_inv (d : Directory) (env : Env) (key : AcmeKey)
    (acc : ApiAccount) (w w' : World) (r : Except Error Response)
    (next : World × Response → World × Except Error Response)
    (h : retry_attempt env.oracle (accountAttempt d env key acc) w next = (w', r))
    (hnext : ∀ (w1 : World) (t1 : List (Request × Body)) (req : Request) (j : Jws)
        (i1 : Nat),
      w1.sent = w.sent ++ t1 → (∀ p ∈ t1, p.2 = (none : Body)) →
      w.sent.length ≤ i1 → i1 < w1.sent.length → nonceAt env.oracle w1.sent i1 j.nonce →
      next ({ w1 with sent := w1.sent ++ [(configure_req req, some j)] },
        env.oracle w1.sent.length (configure_req req) (some j)) = (w', r) →
      nonceSpec env.oracle w w') :
    nonceSpec env.oracle w w' := by
  unfold retry_attempt at h
  rcases hb : accountAttempt d env key acc w with ⟨w1, rb⟩
  rw [hb] at h
  have hspec := accountAttempt_spec d env key acc w w1 rb hb
  cases rb with
  | error e =>
    simp only [Prod.mk.injEq] at h
    obtain ⟨h1, h2⟩ := h
    subst h1
    subst h2
    obtain ⟨⟨t, ht, htn⟩, -⟩ := hspec
    refine ⟨⟨t, ht⟩, ?_, ?_⟩
    · intro n hn
      rw [ht, List.drop_left, sentNonces_none t htn] at hn
      exact absurd hn (by simp)
    · rw [ht, List.drop_left, sentNonces_none t htn]
      exact List.Pairwise.nil
  | ok rb2 =>
    rcases rb2 with ⟨req, body⟩
    obtain ⟨⟨t1, ht1, ht1n⟩, hok⟩ := hspec
    obtain ⟨j, hbody, i1, hi11, hi12, hat1⟩ := hok req body rfl
    subst hbody
    simp only [World.send] at h
    split at h
    · simp only [Prod.mk.injEq] at h
      obtain ⟨h1, h2⟩ := h
      subst h1
      subst h2
      unfold nonceSpec
      exact account_single_envelope env.oracle w w1 t1 (configure_req req, some j) j i1
        ht1 ht1n rfl hi11 hi12 hat1
    · exact hnext w1 t1 req j i1 ht1 ht1n hi11 hi12 hat1 h

theorem retry_go_account_nonces (d : Directory) (env : Env) (key : AcmeKey)
    (acc : ApiAccount)
    (hfresh : ∀ i j r1 b1 r2 b2 n, i ≠ j →
      (env.oracle i r1 b1).header "replay-nonce" = some n →
      (env.oracle j r2 b2).header "replay-nonce" = some n → False) :
    ∀ budget w w' r,
      retry_go env.oracle (accountAttempt d env key acc) budget w = (w', r) →
      nonceSpec env.oracle w w' := by
  intro budget
  induction budget using Nat.strong_induction_on with
  | _ budget ih =>
    intro w w' r h
    have hterm : ∀ (w1 : World) (t1 : List (Request × Body)) (req : Request) (j : Jws)
        (i1 : Nat),
        w1.sent = w.sent ++ t1 → (∀ p ∈ t1, p.2 = (none : Body)) →
        w.sent.length ≤ i1 → i1 < w1.sent.length → nonceAt env.oracle w1.sent i1 j.nonce →
        retryTerminal ({ w1 with sent := w1.sent ++ [(configure_req req, some j)] },
          env.oracle w1.sent.length (configure_req req) (some j)) = (w', r) →
        nonceSpec env.oracle w w' := by
      intro w1 t1 req j i1 ht1 ht1n hi11 hi12 hat1 htm
      simp only [retryTerminal, safe_read_string, readToString, Prod.mk.injEq] at htm
      obtain ⟨h1, h2⟩ := htm
      subst h1
      unfold nonceSpec
      exact account_single_envelope env.oracle w w1 t1 (configure_req req, some j) j i1
        ht1 ht1n rfl hi11 hi12 hat1
    rcases budget with _ | _ | b
    case zero =>
      simp only [retry_go] at h
      exact retry_attempt_account_inv d env key acc w w' r retryTerminal h
        (fun w1 t1 req j i1 a1 a2 a3 a4 a5 a6 => hterm w1 t1 req j i1 a1 a2 a3 a4 a5 a6)
    case succ.zero =>
      simp only [retry_go] at h
      exact retry_attempt_account_inv d env key acc w w' r retryTerminal h
        (fun w1 t1 req j i1 a1 a2 a3 a4 a5 a6 => hterm w1 t1 req j i1 a1 a2 a3 a4 a5 a6)
    case succ.succ =>
      simp only [retry_go] at h
      refine retry_attempt_account_inv d env key acc w w' r _ h ?_
      intro w1 t1 req j i1 ht1 ht1n hi11 hi12 hat1 hnexteq
      simp only [] at hnexteq
      split at hnexteq
      · exact hterm w1 t1 req j i1 ht1 ht1n hi11 hi12 hat1 hnexteq
      · have hrec := ih (b + 1) (by omega) _ w' r hnexteq
        exact nonceSpec_extend env.oracle hfresh w w1
          { w1 with sent := w1.sent ++ [(configure_req req, some j)] } w' t1
          (configure_req req, some j) j i1 ht1 ht1n rfl hi11 hi12 hat1 rfl hrec

/-- Claim C1: the attempt builder runs afresh on every iteration of
`retry_call`, so in `Directory::account` every attempt — including every
retry — fetches a fresh nonce through `new_nonce` and re-signs the payload;
when the authority never answers the same replay-nonce at two distinct
positions of the request trace, no nonce value appears in two signed
envelopes of the whole run. -/
theorem account_fresh_nonce_per_attempt (d : Directory) (env : Env) (contact_email : String)
    (freshKey : KeyMaterial) (w' : World) (r : Except Error Account)
    (hfresh : ∀ i j r1 b1 r2 b2 n, i ≠ j →
      (env.oracle i r1 b1).header "replay-nonce" = some n →
      (env.oracle j r2 b2).header "replay-nonce" = some n → False)
    (hrun : d.account env contact_email freshKey World.empty = (w', r)) :
    (sentNonces w'.sent).Pairwise (fun a b => a ≠ b) := by
  simp only [Directory.account] at hrun
  split at hrun
  · simp only [Prod.mk.injEq] at hrun
    rw [← hrun.1]
    exact List.Pairwise.nil
  · rename_i pemOpt hget
    split at hrun
    · simp only [Prod.mk.injEq] at hrun
      rw [← hrun.1]
      exact List.Pairwise.nil
    · rename_i acme_key hkey
      split at hrun
      · rename_i w2 e2 hr
        simp only [retry_call] at hr
        have hs := retry_go_account_nonces d env acme_key _ hfresh 3 World.empty w2
          (.error e2) hr
        simp only [Prod.mk.injEq] at hrun
        rw [← hrun.1]
        simpa [World.empty] using hs.2.2
      · rename_i w2 res hr
        simp only [retry_call] at hr
        have hs := retry_go_account_nonces d env acme_key _ hfresh 3 World.empty w2
          (.ok res) hr
        have hpw : (sentNonces w2.sent).Pairwise (fun a b => a ≠ b) := by
          simpa [World.empty] using hs.2.2
        split at hrun
        · simp only [Prod.mk.injEq] at hrun
          rw [← hrun.1]
          exact hpw
        · split at hrun
          · simp only [Prod.mk.injEq] at hrun
            rw [← hrun.1]
            exact hpw
          · split at hrun
            · split at hrun
              · simp only [Prod.mk.injEq] at hrun
                rw [← hrun.1]
                exact hpw
              · simp only [Prod.mk.injEq] at hrun
                rw [← hrun.1]
                exact hpw
            · simp only [Prod.mk.injEq] at hrun
              rw [← hrun.1]
              exact hpw

/-- Witness for C1: a concrete bootstrap against an authority whose
replay-nonce values differ across trace positions yields pairwise-distinct
envelope nonces. -/
theorem account_fresh_nonce_per_attempt_witness :
    (∀ i j r1 b1 r2 b2 n, i ≠ j →
      (envFix.oracle i r1 b1).header "replay-nonce" = some n →
      (envFix.oracle j r2 b2).header "replay-nonce" = some n → False) ∧
    (sentNonces ((dirFix.account envFix "foo@bar.com" [1, 2, 3] World.empty).1).sent).Pairwise
      (fun a b => a ≠ b) := by
  have hf : ∀ i j r1 b1 r2 b2 n, i ≠ j →
      (envFix.oracle i r1 b1).header "replay-nonce" = some n →
      (envFix.oracle j r2 b2).header "replay-nonce" = some n → False := by
    intro i j r1 b1 r2 b2 n hij h1 h2
    have hi0 : i = 0 := by
      by_contra hne
      have hred : (envFix.oracle i r1 b1).header "replay-nonce" = none := by
        show (okOracle i r1 b1).header "replay-nonce" = none
        unfold okOracle
        rw [if_neg hne]
        rfl
      rw [hred] at h1
      cases h1
    have hj0 : j = 0 := by
      by_contra hne
      have hred : (envFix.oracle j r2 b2).header "replay-nonce" = none := by
        show (okOracle j r2 b2).header "replay-nonce" = none
        unfold okOracle
        rw [if_neg hne]
        rfl
      rw [hred] at h2
      cases h2
    exact hij (hi0.trans hj0.symm)
  exact ⟨hf, account_fresh_nonce_per_attempt dirFix envFix "foo@bar.com" [1, 2, 3]
    (dirFix.account envFix "foo@bar.com" [1, 2, 3] World.empty).1
    (dirFix.account envFix "foo@bar.com" [1, 2, 3] World.empty).2 hf rfl⟩

end AcmeLib
